import Mathlib

/-!
Verification of rm_xz_vision26: detection decoding and the ROI tracking loop.

A shallow embedding of `YOLODetector.cpp` (`preprocess`, `detect`) and of the
loop body of `main` in `test.cpp` (`make_safe_rect`, the SEARCH / TRACK state
update and the decision layer).

Conventions of the embedding.

* C++ `int` is `Int`; overflow of `int` arithmetic is not modelled (the
  operands are pixel coordinates and a frame counter).
* `float` and `double` values are rationals.  In `preprocess` and in the
  coordinate un-mapping of `detect` every `float` / `double` operation is
  rounded to binary32 / binary64 (round to nearest, ties to even).  In the loop
  of `main` and in the packing of a result the float operands are pixel
  coordinates, their halves and their differences, which binary32 holds
  exactly; they are kept exact.  Comparisons are exact.  NaN, infinities and
  overflow are outside the model.  The thresholds are the binary32 values of
  the literals in the source (`0.40f` is `13421773 / 2^25`, and so on).
* A C++ conversion float -> int (`int x = f;`, `static_cast<int>`) truncates
  toward zero (out of range: the x86-64 result `INT_MIN`);
  `cv::Point(cv::Point2f)` goes through `cvRound` (nearest, ties to even);
  `int / int` truncates toward zero.
* Code that does not return normally yields `Except.error`: an OpenCV
  assertion (`cv::Exception`, never caught by the program) or a read outside
  the decoded buffer.
* The network inference and `cv::dnn::NMSBoxes` are library code.  The raw
  output tensor is an input of `detect`; the overlap test of the suppression
  is a parameter.
-/

namespace rm_vision

/-! ## OpenCV value types -/

/-- Integer rectangle `cv::Rect`. -/
structure Rect where
  x : Int
  y : Int
  width : Int
  height : Int
deriving DecidableEq, Repr

/-- Integer point `cv::Point`. -/
structure Point where
  x : Int
  y : Int
deriving DecidableEq, Repr

/-- Float point `cv::Point2f`. -/
structure Point2f where
  x : Rat
  y : Rat
deriving DecidableEq, Repr

/-- Top-left corner `Rect::tl()`. -/
def Rect.tl (r : Rect) : Point := ⟨r.x, r.y⟩

/-- Bottom-right corner `Rect::br()`. -/
def Rect.br (r : Rect) : Point := ⟨r.x + r.width, r.y + r.height⟩

/-- Conversion of a floating value to `int`: the fraction is discarded.  A
value outside the range of `int` is undefined behaviour in C++; the model
returns what the x86-64 conversion instructions return, `INT_MIN`. -/
def truncToInt (q : Rat) : Int :=
  let t := Int.tdiv q.num q.den
  if -2147483648 ≤ t ∧ t ≤ 2147483647 then t else -2147483648

/-! ## Binary floating point (IEEE 754, round to nearest, ties to even) -/

/-- The power of two `2 ^ e` for an integer exponent. -/
def pow2 (e : Int) : Rat :=
  if 0 ≤ e then ((2 ^ e.toNat : Nat) : Rat) else 1 / ((2 ^ (-e).toNat : Nat) : Rat)

/-- Binary logarithm of a natural number, rounded down, by halving at most
`fuel` times. -/
def log2Fuel : Nat → Nat → Nat
  | 0, _ => 0
  | fuel + 1, n => if n < 2 then 0 else log2Fuel fuel (n / 2) + 1

/-- Binary logarithm of a positive natural number, rounded down. -/
def natLog2 (n : Nat) : Nat := log2Fuel n n

/-- Binary exponent of a non-zero rational: the `e` with
`2 ^ e ≤ |x| < 2 ^ (e + 1)`. -/
def floorLog2 (x : Rat) : Int :=
  let e0 : Int := (natLog2 x.num.natAbs : Int) - (natLog2 x.den : Int)
  if pow2 e0 ≤ |x| then e0 else e0 - 1

/-- Nearest integer, a tie goes to the even neighbour. -/
def roundTiesEven (q : Rat) : Int :=
  let f := Rat.floor q
  let r := q - f
  if r < 1 / 2 then f
  else if 1 / 2 < r then f + 1
  else if f % 2 = 0 then f else f + 1

/-- Rounding of `x` to the binary format with `p` significant bits whose
smallest positive number is `2 ^ emin`.  Overflow to infinity is not
modelled. -/
def roundBinary (p : Nat) (emin : Int) (x : Rat) : Rat :=
  if x = 0 then 0
  else
    let k := max (floorLog2 x - ((p : Int) - 1)) emin
    (roundTiesEven (x / pow2 k) : Rat) * pow2 k

/-- Rounding to `float` (binary32). -/
def fl32 (x : Rat) : Rat := roundBinary 24 (-149) x

/-- Rounding to `double` (binary64). -/
def fl64 (x : Rat) : Rat := roundBinary 53 (-1074) x

/-- Rounding `cvRound` used by `saturate_cast<int>(float)`: nearest integer,
a tie goes to the even neighbour. -/
def cvRound (q : Rat) : Int :=
  let f := Rat.floor q
  let r := q - f
  if r < 1 / 2 then f
  else if 1 / 2 < r then f + 1
  else if f % 2 = 0 then f else f + 1

/-- Conversion `cv::Point(cv::Point2f)`. -/
def Point2f.toPoint (p : Point2f) : Point := ⟨cvRound p.x, cvRound p.y⟩

/-- Conversion `cv::Point2f(cv::Point)`. -/
def Point.toPoint2f (p : Point) : Point2f := ⟨p.x, p.y⟩

/-- Midpoint `(r.tl() + r.br()) / 2` with the integer division of `cv::Point`. -/
def rectCenter (r : Rect) : Point :=
  ⟨Int.tdiv (r.tl.x + r.br.x) 2, Int.tdiv (r.tl.y + r.br.y) 2⟩

/-- Outcome of code that does not return normally. -/
inductive Fault where
  | cvAssert
  | outOfBounds
deriving DecidableEq, Repr

deriving instance DecidableEq for Except

/-! ## DetectionResult.hpp -/

/-- Record `DetectionResult`. -/
structure DetectionResult where
  cls : Int
  score : Rat
  bbox : Rect
  center : Point2f
  kpts : List Point2f
  frame_id : Int
deriving DecidableEq, Repr

/-! ## test.cpp: constants and `make_safe_rect` -/

/-- Search threshold `0.40f`. -/
def SEARCH_CONF : Rat := 13421773 / 33554432

/-- Track threshold `0.60f`. -/
def TRACK_CONF : Rat := 5033165 / 8388608

/-- ROI magnification `2.0f`. -/
def ROI_SCALE : Rat := 2

/-- Largest tolerated number of lost frames. -/
def MAX_LOST_CNT : Int := 10

/-- Function `make_safe_rect` of `test.cpp`. -/
def make_safe_rect (r : Rect) (max_w max_h : Int) : Rect :=
  let x := max 0 r.x
  let y := max 0 r.y
  let w := min r.width (max_w - x)
  let h := min r.height (max_h - y)
  ⟨x, y, w, h⟩

/-! ## test.cpp: the loop state and one iteration -/

/-- The state-machine variables of `main`. -/
structure TrackState where
  is_tracking : Bool
  last_rect : Rect
  velocity : Point2f
  lost_count : Int
  target_id : Int
deriving DecidableEq, Repr

/-- Values of the state variables before the first frame. -/
def initState : TrackState :=
  { is_tracking := false, last_rect := ⟨0, 0, 0, 0⟩, velocity := ⟨0, 0⟩,
    lost_count := 0, target_id := -1 }

/-- Predicted centre of the target: centre of `last_rect` plus the velocity. -/
def predictedCenter (s : TrackState) : Point :=
  let center := rectCenter s.last_rect
  ⟨center.x + truncToInt s.velocity.x, center.y + truncToInt s.velocity.y⟩

/-- Side of the square ROI: the larger side of `last_rect` times `ROI_SCALE`,
at least 128. -/
def roiSide (s : TrackState) : Int :=
  let side := truncToInt (((max s.last_rect.width s.last_rect.height : Int) : Rat) * ROI_SCALE)
  if side < 128 then 128 else side

/-- The square around the predicted centre, before clamping. -/
def roiSquare (s : TrackState) : Rect :=
  let center := predictedCenter s
  let side := roiSide s
  ⟨center.x - Int.tdiv side 2, center.y - Int.tdiv side 2, side, side⟩

/-- The rectangle `roi_rect` that the TRACK branch crops from a frame of
`cols` by `rows` pixels. -/
def roi_rect (s : TrackState) (cols rows : Int) : Rect :=
  make_safe_rect (roiSquare s) cols rows

/-- Precondition asserted by `cv::Mat::operator()(const Rect&)`. -/
def roiInside (roi : Rect) (cols rows : Int) : Bool :=
  decide (0 ≤ roi.x) && decide (0 ≤ roi.width) && decide (roi.x + roi.width ≤ cols) &&
  decide (0 ≤ roi.y) && decide (0 ≤ roi.height) && decide (roi.y + roi.height ≤ rows)

/-- Coordinate restoration of the TRACK branch: ROI coordinates to full-image
coordinates. -/
def restore (roi : Rect) (res : DetectionResult) : DetectionResult :=
  { res with
    bbox := { res.bbox with x := res.bbox.x + roi.x, y := res.bbox.y + roi.y }
    center := ⟨res.center.x + roi.x, res.center.y + roi.y⟩ }

/-- Filter of the TRACK branch: the locked class and a score above `TRACK_CONF`. -/
def trackKeep (target_id : Int) (res : DetectionResult) : Bool :=
  decide (res.cls = target_id) && decide (res.score > TRACK_CONF)

/-- Filter of the SEARCH branch: a score above `SEARCH_CONF`. -/
def searchKeep (res : DetectionResult) : Bool :=
  decide (res.score > SEARCH_CONF)

/-- Insertion into a list ordered by decreasing score; among equal scores the
inserted element goes first. -/
def insertByScore (d : DetectionResult) : List DetectionResult → List DetectionResult
  | [] => [d]
  | e :: es => if e.score > d.score then e :: insertByScore d es else d :: e :: es

/-- The call `std::sort(results, a.score > b.score)`.  The standard leaves the
order of results with equal scores open; the model keeps them in list order
(a stable sort).  The theorems below use only that `results[0]` has maximal
score, which holds for every such order. -/
def sortByScore : List DetectionResult → List DetectionResult
  | [] => []
  | d :: ds => insertByScore d (sortByScore ds)

/-- The decision layer of the loop body: lock on `results[0]` after sorting. -/
def decisionLayer (s : TrackState) (results : List DetectionResult) : TrackState :=
  match sortByScore results with
  | [] => s
  | best :: _ =>
    let velocity : Point2f :=
      if s.is_tracking then
        let old_center := rectCenter s.last_rect
        let new_center := best.center.toPoint
        Point.toPoint2f ⟨new_center.x - old_center.x, new_center.y - old_center.y⟩
      else ⟨0, 0⟩
    { s with velocity := velocity, is_tracking := true, last_rect := best.bbox,
             target_id := best.cls }

/-- The state update of the TRACK branch from the filtered results. -/
def trackUpdate (s : TrackState) (results : List DetectionResult) : TrackState :=
  if results.isEmpty then
    let lost_count := s.lost_count + 1
    if lost_count > MAX_LOST_CNT then
      { s with lost_count := lost_count, is_tracking := false }
    else
      { s with lost_count := lost_count }
  else
    { s with lost_count := 0 }

/-- The results kept by the TRACK branch. -/
def trackResults (s : TrackState) (cols rows : Int) (raw_results : List DetectionResult) :
    List DetectionResult :=
  (raw_results.map (restore (roi_rect s cols rows))).filter (trackKeep s.target_id)

/-- The results kept by the SEARCH branch. -/
def searchResults (raw_results : List DetectionResult) : List DetectionResult :=
  raw_results.filter searchKeep

/-- One iteration of the loop of `main` on a frame of `cols` by `rows` pixels.
`raw_results` is what `detector.detect` returns for the image the iteration
hands to it: the cropped ROI in TRACK mode, the whole frame in SEARCH mode. -/
def step (s : TrackState) (cols rows : Int) (raw_results : List DetectionResult) :
    Except Fault TrackState :=
  if s.is_tracking then
    let roi := roi_rect s cols rows
    if roiInside roi cols rows then
      let results := trackResults s cols rows raw_results
      .ok (decisionLayer (trackUpdate s results) results)
    else .error Fault.cvAssert
  else
    .ok (decisionLayer s (searchResults raw_results))

/-- A frame as the loop sees it: its size and the detector output on it. -/
structure FrameInput where
  cols : Int
  rows : Int
  raw_results : List DetectionResult
deriving DecidableEq, Repr

/-- The loop of `main` over a finite sequence of frames. -/
def run (s : TrackState) : List FrameInput → Except Fault TrackState
  | [] => .ok s
  | f :: fs =>
    match step s f.cols f.rows f.raw_results with
    | .ok s' => run s' fs
    | .error e => .error e

/-! ## YOLODetector.hpp / YOLODetector.cpp -/

/-- The data members of `YOLODetector` that `preprocess` and `detect` read. -/
structure YOLODetector where
  input_w_ : Int
  input_h_ : Int
  num_classes_ : Int
  conf_threshold_ : Rat
  nms_threshold_ : Rat
deriving DecidableEq, Repr

/-- The detector with the member initialisers of `YOLODetector.hpp`:
480 x 480 input, 15 classes, `conf_threshold_ = 0.50f`, `nms_threshold_ = 0.45f`. -/
def defaultDetector : YOLODetector :=
  { input_w_ := 480, input_h_ := 480, num_classes_ := 15,
    conf_threshold_ := 1 / 2, nms_threshold_ := 7549747 / 16777216 }

/-- The constructor `YOLODetector::YOLODetector` for a model with input shape
`[1, 3, input_h, input_w]` and output shape `[1, channels, anchors]`: the input
size is read from the input shape, `num_classes_ = channels - 4`, and the
thresholds keep their member initialisers. -/
def YOLODetector.ofModel (input_h input_w channels : Nat) : YOLODetector :=
  { input_w_ := input_w, input_h_ := input_h, num_classes_ := (channels : Int) - 4,
    conf_threshold_ := 1 / 2, nms_threshold_ := 7549747 / 16777216 }

/-- What `preprocess` computes: the out-parameters `scale`, `w_pad`, `h_pad`
and the size `new_w` x `new_h` handed to `cv::resize`. -/
structure Letterbox where
  scale : Rat
  w_pad : Int
  h_pad : Int
  new_w : Int
  new_h : Int
deriving DecidableEq, Repr

/-- The arithmetic of `YOLODetector::preprocess` on an image of `w` x `h`
pixels.  The quotients `(float)input_w_ / w` and the products `w * scale` are
`float` operations on the converted integers; each is rounded to binary32. -/
def letterbox (det : YOLODetector) (w h : Int) : Letterbox :=
  let scale := min (fl32 (fl32 det.input_w_ / fl32 w)) (fl32 (fl32 det.input_h_ / fl32 h))
  let new_w := truncToInt (fl32 (fl32 w * scale))
  let new_h := truncToInt (fl32 (fl32 h * scale))
  let w_pad := Int.tdiv (det.input_w_ - new_w) 2
  let h_pad := Int.tdiv (det.input_h_ - new_h) 2
  { scale := scale, w_pad := w_pad, h_pad := h_pad, new_w := new_w, new_h := new_h }

/-- Function `YOLODetector::preprocess`: `cv::resize` asserts a non-empty
destination size, `cv::copyMakeBorder` asserts non-negative borders. -/
def preprocess (det : YOLODetector) (w h : Int) : Except Fault Letterbox :=
  let lb := letterbox det w h
  if lb.new_w ≤ 0 ∨ lb.new_h ≤ 0 then .error Fault.cvAssert
  else if lb.h_pad < 0 ∨ det.input_h_ - lb.new_h - lb.h_pad < 0 ∨
          lb.w_pad < 0 ∨ det.input_w_ - lb.new_w - lb.w_pad < 0 then .error Fault.cvAssert
  else .ok lb

/-- The output tensor of the inference request: shape `[1, dims, anchors]`
and its floats in row-major order. -/
structure OutputTensor where
  dims : Nat
  anchors : Nat
  raw_output : List Rat
deriving DecidableEq, Repr

/-- The transposed buffer `output_t`: `anchors` rows of `dims` floats. -/
def OutputTensor.output_t (t : OutputTensor) : List Rat :=
  (List.range (t.anchors * t.dims)).map
    (fun k => t.raw_output.getD ((k % t.dims) * t.anchors + k / t.dims) 0)

/-- A read `data[k]` of the transposed buffer. -/
def readFloat (data : List Rat) (k : Nat) : Except Fault Rat :=
  match data[k]? with
  | some v => .ok v
  | none => .error Fault.outOfBounds

/-- The reads `data[base], .., data[base + n - 1]`. -/
def readFloats (data : List Rat) (base : Nat) : Nat → Except Fault (List Rat)
  | 0 => .ok []
  | n + 1 =>
    match readFloats data base n with
    | .error e => .error e
    | .ok vs =>
      match readFloat data (base + n) with
      | .error e => .error e
      | .ok v => .ok (vs ++ [v])

/-- The class loop of `detect`: running maximum `max_score` and its index
`max_class_id`, over the scores from class `c` on. -/
def maxScoreLoop : List Rat → Int → Rat → Int → Rat × Int
  | [], _, max_score, max_class_id => (max_score, max_class_id)
  | s :: ss, c, max_score, max_class_id =>
    if s > max_score then maxScoreLoop ss (c + 1) s c
    else maxScoreLoop ss (c + 1) max_score max_class_id

/-- One entry of the parallel vectors `boxes`, `confidences`, `class_ids`. -/
structure Candidate where
  box : Rect
  confidence : Rat
  class_id : Int
deriving DecidableEq, Repr

/-- Coordinate un-mapping and bounds protection of `detect` for one anchor
`(cx, cy, w, h)` on a frame of `cols` x `rows` pixels.  `left` and `top` are
computed in `double` (the literal `0.5` promotes the expression), `width` and
`height` in `float`; every operation is rounded to its format. -/
def unmapBox (lb : Letterbox) (cols rows : Int) (cx cy w h : Rat) : Rect :=
  let left := truncToInt (fl64 (fl64 (fl64 (cx - fl64 ((1 / 2) * w)) - lb.w_pad) / lb.scale))
  let top := truncToInt (fl64 (fl64 (fl64 (cy - fl64 ((1 / 2) * h)) - lb.h_pad) / lb.scale))
  let width := truncToInt (fl32 (w / lb.scale))
  let height := truncToInt (fl32 (h / lb.scale))
  let left := max 0 left
  let top := max 0 top
  let width := min width (cols - left)
  let height := min height (rows - top)
  ⟨left, top, width, height⟩

/-- The body of the anchor loop of `detect` for anchor `i`. -/
def decodeAnchor (det : YOLODetector) (lb : Letterbox) (cols rows : Int) (dims : Nat)
    (data : List Rat) (i : Nat) : Except Fault (Option Candidate) :=
  match readFloats data (i * dims + 4) det.num_classes_.toNat with
  | .error e => .error e
  | .ok scores =>
    let m := maxScoreLoop scores 0 (-1) (-1)
    if m.1 > det.conf_threshold_ then
      match readFloats data (i * dims) 4 with
      | .ok [cx, cy, w, h] => .ok (some ⟨unmapBox lb cols rows cx cy w h, m.1, m.2⟩)
      | .ok _ => .error Fault.outOfBounds
      | .error e => .error e
    else .ok none

/-- The anchor loop of `detect` over the anchors listed in `is`. -/
def decodeAnchors (det : YOLODetector) (lb : Letterbox) (cols rows : Int) (dims : Nat)
    (data : List Rat) : List Nat → Except Fault (List Candidate)
  | [] => .ok []
  | i :: is =>
    match decodeAnchor det lb cols rows dims data i with
    | .error e => .error e
    | .ok c =>
      match decodeAnchors det lb cols rows dims data is with
      | .error e => .error e
      | .ok cs => .ok (c.toList ++ cs)

/-! ### `cv::dnn::NMSBoxes` (OpenCV), with the overlap measure as a parameter -/

/-- Insertion into a list of (score, index) pairs ordered by decreasing
score, after the pairs of equal score. -/
def insertPair (p : Rat × Nat) : List (Rat × Nat) → List (Rat × Nat)
  | [] => [p]
  | q :: qs => if p.1 > q.1 then p :: q :: qs else q :: insertPair p qs

/-- The call `std::stable_sort` by decreasing score. -/
def sortPairs (ps : List (Rat × Nat)) : List (Rat × Nat) :=
  ps.foldl (fun acc p => insertPair p acc) []

/-- Routine `GetMaxScoreIndex`: the (score, index) pairs with a score above
the threshold, by decreasing score. -/
def getMaxScoreIndex (scores : List Rat) (threshold : Rat) : List (Rat × Nat) :=
  sortPairs ((scores.enum.map (fun p => (p.2, p.1))).filter (fun p => decide (p.1 > threshold)))

/-- The greedy loop of `NMSFast_`: an index is kept when its box overlaps no
kept box by more than `nms_threshold`. -/
def nmsLoop (computeOverlap : Rect → Rect → Rat) (nms_threshold : Rat) (bboxes : List Rect) :
    List (Rat × Nat) → List Nat → List Nat
  | [], indices => indices
  | p :: ps, indices =>
    let keep := indices.all (fun kept_idx =>
      decide (computeOverlap (bboxes.getD p.2 ⟨0, 0, 0, 0⟩) (bboxes.getD kept_idx ⟨0, 0, 0, 0⟩)
        ≤ nms_threshold))
    nmsLoop computeOverlap nms_threshold bboxes ps (if keep then indices ++ [p.2] else indices)

/-- Routine `cv::dnn::NMSBoxes` with `eta = 1` and `top_k = 0`. -/
def NMSBoxes (computeOverlap : Rect → Rect → Rat) (bboxes : List Rect) (scores : List Rat)
    (score_threshold nms_threshold : Rat) : Except Fault (List Nat) :=
  if score_threshold < 0 ∨ nms_threshold < 0 then .error Fault.cvAssert
  else .ok (nmsLoop computeOverlap nms_threshold bboxes (getMaxScoreIndex scores score_threshold) [])

/-- Intersection `a & b` of two `cv::Rect`. -/
def Rect.inter (a b : Rect) : Rect :=
  let x1 := max a.x b.x
  let y1 := max a.y b.y
  let w := min (a.x + a.width) (b.x + b.width) - x1
  let h := min (a.y + a.height) (b.y + b.height) - y1
  if w ≤ 0 ∨ h ≤ 0 then ⟨0, 0, 0, 0⟩ else ⟨x1, y1, w, h⟩

/-- Area `Rect::area()`. -/
def Rect.area (r : Rect) : Int := r.width * r.height

/-- The overlap measure `rectOverlap` that `NMSBoxes` passes to `NMSFast_`:
one minus the Jaccard distance of the two rectangles. -/
def rectOverlap (a b : Rect) : Rat :=
  if a.area + b.area ≤ 0 then 1
  else 1 - (1 - ((a.inter b).area : Rat) / (a.area + b.area - (a.inter b).area))

/-- Packing of candidate `c` into a `DetectionResult` (STEP 5 of `detect`). -/
def packResult (frame_id : Int) (c : Candidate) : DetectionResult :=
  { cls := c.class_id, score := c.confidence, bbox := c.box,
    center := ⟨c.box.x + (c.box.width : Rat) / 2, c.box.y + (c.box.height : Rat) / 2⟩,
    kpts := [], frame_id := frame_id }

/-- Function `YOLODetector::detect` on a frame of `cols` x `rows` pixels, given
the output tensor `t` that the inference produces for it. -/
def detect (det : YOLODetector) (computeOverlap : Rect → Rect → Rat) (cols rows : Int)
    (frame_id : Int) (t : OutputTensor) : Except Fault (List DetectionResult) :=
  if cols ≤ 0 ∨ rows ≤ 0 then .ok []
  else
    match preprocess det cols rows with
    | .error e => .error e
    | .ok lb =>
      match decodeAnchors det lb cols rows t.dims t.output_t (List.range t.anchors) with
      | .error e => .error e
      | .ok cands =>
        match NMSBoxes computeOverlap (cands.map Candidate.box) (cands.map Candidate.confidence)
            det.conf_threshold_ det.nms_threshold_ with
        | .error e => .error e
        | .ok indices =>
          .ok (indices.filterMap (fun idx => (cands[idx]?).map (packResult frame_id)))

/-! ## Concrete frames used in the evaluations -/

/-- A detection of class `cls` with score `score` and box `b`, as `detect`
packs it. -/
def detection (cls : Int) (score : Rat) (b : Rect) : DetectionResult :=
  packResult 0 ⟨b, score, cls⟩

/-- A 640 x 480 frame on which the detector returns `raw_results`. -/
def vga (raw_results : List DetectionResult) : FrameInput := ⟨640, 480, raw_results⟩

/-- A frame showing the target of Scenario B: class 3, box (100,100,50,50),
score 0.9. -/
def targetFrame : FrameInput := vga [detection 3 (9 / 10) ⟨100, 100, 50, 50⟩]

/-- A run that acquires the target and then loses it on eleven frames in a
row. -/
def acquireThenLose : List FrameInput := targetFrame :: List.replicate 11 (vga [])

/-- A target that accelerates to the right border of a 640 x 480 image: the
first frame is a full-frame detection, the next four are detections inside the
ROI of the previous state (ROI coordinates). -/
def borderRun : List FrameInput :=
  [ vga [detection 3 (9 / 10) ⟨0, 200, 20, 20⟩],
    vga [detection 3 (9 / 10) ⟨100, 54, 20, 20⟩],
    vga [detection 3 (9 / 10) ⟨108, 54, 20, 20⟩],
    vga [detection 3 (9 / 10) ⟨108, 54, 20, 20⟩],
    vga [detection 3 (9 / 10) ⟨4, 54, 20, 20⟩] ]

/-- The state reached at the end of `borderRun`. -/
def borderState : TrackState :=
  { is_tracking := true, last_rect := ⟨620, 200, 20, 20⟩, velocity := ⟨158, 0⟩,
    lost_count := 0, target_id := 3 }

/-- The output tensor whose anchors are the given rows `(cx, cy, w, h,
scores..)`, stored channel by channel as the inference engine does. -/
def tensorOfRows (dims : Nat) (anchorRows : List (List Rat)) : OutputTensor :=
  { dims := dims, anchors := anchorRows.length,
    raw_output := (List.range dims).flatMap (fun ch => anchorRows.map (fun r => r.getD ch 0)) }

/-- One anchor of class 0 with score 0.9 whose box (240,420,20,20) lies in the
lower padding band of the letterboxed 480 x 240 frame. -/
def paddingTensor : OutputTensor :=
  tensorOfRows 19 [[240, 420, 20, 20, 9 / 10] ++ List.replicate 14 0]

/-- Two anchors with 15 class scores: the first has its maximum 0.8 at classes
2 and 5, the second has maximum exactly 0.5. -/
def tieTensor : OutputTensor :=
  tensorOfRows 19
    [[100, 100, 40, 40, 0, 1 / 10, 4 / 5, 0, 0, 4 / 5, 0, 0, 0, 0, 0, 0, 0, 0, 0],
     [300, 300, 40, 40, 0, 0, 0, 1 / 2, 0, 0, 0, 0, 0, 0, 0, 0, 0, 0, 0]]

/-- The tensor of Scenario C: shape `[1, 10, 100]`, all entries zero. -/
def scenarioC : OutputTensor :=
  { dims := 10, anchors := 100, raw_output := List.replicate 1000 0 }

/-- Entry of channel `ch` for anchor `i` in the original layout of the
tensor. -/
def OutputTensor.entry (t : OutputTensor) (ch i : Nat) : Rat :=
  t.raw_output.getD (ch * t.anchors + i) 0

/-- The class scores of anchor `i`: channels `4 .. 4 + num_classes - 1`. -/
def specScores (t : OutputTensor) (num_classes i : Nat) : List Rat :=
  (List.range num_classes).map (fun c => t.entry (4 + c) i)

/-- The largest element of a list of scores, if there is one. -/
def listMax : List Rat → Option Rat
  | [] => none
  | s :: ss =>
    match listMax ss with
    | none => some s
    | some m => some (max s m)

/-- The first position at which `v` occurs in the list. -/
def firstIndex (v : Rat) : List Rat → Nat
  | [] => 0
  | s :: ss => if s = v then 0 else firstIndex v ss + 1

/-- The candidate of anchor `i`: kept when the maximum of its class scores
exceeds `conf_threshold_`, with that maximum as confidence, the first index
reaching it as class, and the un-mapped entries of channels 0..3 as box. -/
def specAnchor (det : YOLODetector) (lb : Letterbox) (cols rows : Int) (t : OutputTensor)
    (i : Nat) : Option Candidate :=
  match listMax (specScores t det.num_classes_.toNat i) with
  | none => none
  | some m =>
    if m > det.conf_threshold_ then
      some ⟨unmapBox lb cols rows (t.entry 0 i) (t.entry 1 i) (t.entry 2 i) (t.entry 3 i), m,
        (firstIndex m (specScores t det.num_classes_.toNat i) : Nat)⟩
    else none

/-- The candidates of all anchors, in anchor order. -/
def specCandidates (det : YOLODetector) (lb : Letterbox) (cols rows : Int) (t : OutputTensor) :
    List Candidate :=
  (List.range t.anchors).filterMap (specAnchor det lb cols rows t)

/-- The detections of the specified decoder: the candidates that survive the
suppression, packed with `frame_id`. -/
def decodeSpec (det : YOLODetector) (computeOverlap : Rect → Rect → Rat) (lb : Letterbox)
    (cols rows frame_id : Int) (t : OutputTensor) : List DetectionResult :=
  (nmsLoop computeOverlap det.nms_threshold_
      ((specCandidates det lb cols rows t).map Candidate.box)
      (getMaxScoreIndex ((specCandidates det lb cols rows t).map Candidate.confidence)
        det.conf_threshold_) []).filterMap
    (fun idx => ((specCandidates det lb cols rows t)[idx]?).map (packResult frame_id))

/-- Rounding to the nearest integer, as the specification of the letterbox
transform words it (`round`). -/
def roundNearest (q : Rat) : Int := Int.floor (q + 1 / 2)

/-! ## Theorems -/

/-- C3: for every rectangle and every image size, the rectangle returned by
`make_safe_rect` has `x >= 0`, `y >= 0`, `x + width <= image_w` and
`y + height <= image_h`; in particular the ROI of every tracking state. -/
theorem make_safe_rect_within (r : Rect) (image_w image_h : Int) :
    0 ≤ (make_safe_rect r image_w image_h).x ∧
    0 ≤ (make_safe_rect r image_w image_h).y ∧
    (make_safe_rect r image_w image_h).x + (make_safe_rect r image_w image_h).width ≤ image_w ∧
    (make_safe_rect r image_w image_h).y + (make_safe_rect r image_w image_h).height ≤ image_h ∧
    ∀ s : TrackState,
      0 ≤ (roi_rect s image_w image_h).x ∧ 0 ≤ (roi_rect s image_w image_h).y ∧
      (roi_rect s image_w image_h).x + (roi_rect s image_w image_h).width ≤ image_w ∧
      (roi_rect s image_w image_h).y + (roi_rect s image_w image_h).height ≤ image_h := by
  have key : ∀ q : Rect,
      0 ≤ (make_safe_rect q image_w image_h).x ∧
      0 ≤ (make_safe_rect q image_w image_h).y ∧
      (make_safe_rect q image_w image_h).x + (make_safe_rect q image_w image_h).width ≤ image_w ∧
      (make_safe_rect q image_w image_h).y + (make_safe_rect q image_w image_h).height
        ≤ image_h := by
    intro q
    simp only [make_safe_rect]
    refine ⟨le_max_left _ _, le_max_left _ _, ?_, ?_⟩
    · have := min_le_right q.width (image_w - max 0 q.x)
      omega
    · have := min_le_right q.height (image_h - max 0 q.y)
      omega
  obtain ⟨h1, h2, h3, h4⟩ := key r
  exact ⟨h1, h2, h3, h4, fun s => key (roiSquare s)⟩

/-! ### The decision layer picks a result of maximal score -/

theorem insertByScore_ne_nil (d : DetectionResult) (l : List DetectionResult) :
    insertByScore d l ≠ [] := by
  cases l with
  | nil => simp [insertByScore]
  | cons e es =>
    simp only [insertByScore]
    split <;> simp

theorem sortByScore_head (l : List DetectionResult) (hl : l ≠ []) :
    ∃ best rest, sortByScore l = best :: rest ∧ best ∈ l ∧ ∀ e ∈ l, e.score ≤ best.score := by
  induction l with
  | nil => exact absurd rfl hl
  | cons d ds ih =>
    by_cases hds : ds = []
    · subst hds
      refine ⟨d, [], by simp [sortByScore, insertByScore], by simp, ?_⟩
      intro e he
      simp at he
      rw [he]
    · obtain ⟨b, rest, hsort, hb, hmax⟩ := ih hds
      simp only [sortByScore, hsort, insertByScore]
      by_cases hgt : b.score > d.score
      · refine ⟨b, insertByScore d rest, by simp [hgt], by simp [hb], ?_⟩
        intro e he
        rcases List.mem_cons.mp he with h | h
        · rw [h]; exact le_of_lt hgt
        · exact hmax e h
      · refine ⟨d, b :: rest, by simp [hgt], by simp, ?_⟩
        intro e he
        rcases List.mem_cons.mp he with h | h
        · rw [h]
        · exact le_trans (hmax e h) (not_lt.mp hgt)

theorem miss_step (s : TrackState) (cols rows : Int) (raw : List DetectionResult)
    (htrack : s.is_tracking = true)
    (hroi : roiInside (roi_rect s cols rows) cols rows = true)
    (hmiss : trackResults s cols rows raw = []) :
    step s cols rows raw =
      .ok (if s.lost_count + 1 > MAX_LOST_CNT then
             { s with lost_count := s.lost_count + 1, is_tracking := false }
           else { s with lost_count := s.lost_count + 1 }) := by
  simp only [step, htrack, hroi, if_true, hmiss, trackUpdate, List.isEmpty_nil, decisionLayer,
    sortByScore]

theorem misses_keep_tracking (fs : List FrameInput) (s : TrackState) (cols rows : Int)
    (htrack : s.is_tracking = true)
    (hroi : roiInside (roi_rect s cols rows) cols rows = true)
    (hbound : s.lost_count + fs.length ≤ MAX_LOST_CNT)
    (hall : ∀ f ∈ fs, f.cols = cols ∧ f.rows = rows ∧
      trackResults s cols rows f.raw_results = []) :
    run s fs = .ok { s with lost_count := s.lost_count + fs.length } := by
  induction fs generalizing s with
  | nil => simp [run]
  | cons f fs ih =>
    obtain ⟨hc, hr, hmiss⟩ := hall f (by simp)
    simp only [List.length_cons, Nat.cast_add, Nat.cast_one] at hbound
    have hle : ¬ (s.lost_count + 1 > MAX_LOST_CNT) := by
      have : (0 : Int) ≤ (fs.length : Int) := Int.natCast_nonneg _
      omega
    have hstep := miss_step s cols rows f.raw_results htrack hroi hmiss
    simp only [hle, if_false] at hstep
    have hrec := ih { s with lost_count := s.lost_count + 1 } htrack hroi
      (by simp only; omega) (fun g hg => hall g (by simp [hg]))
    simp only [run, hc, hr, hstep, hrec, List.length_cons, Nat.cast_add, Nat.cast_one]
    congr 2
    omega

theorem eleventh_miss_drops (fs : List FrameInput) (f : FrameInput) (s : TrackState)
    (cols rows : Int) (htrack : s.is_tracking = true)
    (hroi : roiInside (roi_rect s cols rows) cols rows = true)
    (hfresh : s.lost_count = 0) (hlen : fs.length = 10)
    (hall : ∀ g ∈ fs ++ [f], g.cols = cols ∧ g.rows = rows ∧
      trackResults s cols rows g.raw_results = []) :
    run s fs = .ok { s with lost_count := 10 } ∧
    run s (fs ++ [f]) = .ok { s with lost_count := 11, is_tracking := false } := by
  have h10 : run s fs = .ok { s with lost_count := 10 } := by
    have := misses_keep_tracking fs s cols rows htrack hroi
      (by rw [hfresh, hlen]; decide) (fun g hg => hall g (by simp [hg]))
    rw [this, hfresh, hlen]
    rfl
  refine ⟨h10, ?_⟩
  have happ : ∀ (l : List FrameInput) (a b : TrackState), run a l = .ok b →
      run a (l ++ [f]) = run b [f] := by
    intro l
    induction l with
    | nil =>
      intro a b hab
      simp only [run, Except.ok.injEq] at hab
      rw [hab]; rfl
    | cons g gs ihg =>
      intro a b hab
      simp only [run, List.cons_append] at hab ⊢
      cases hg : step a g.cols g.rows g.raw_results with
      | error e => simp [hg] at hab
      | ok a' =>
        simp only [hg] at hab ⊢
        exact ihg a' b hab
  rw [happ fs s _ h10]
  obtain ⟨hc, hr, hmiss⟩ := hall f (by simp)
  have hstep := miss_step { s with lost_count := 10 } cols rows f.raw_results htrack hroi hmiss
  simp only [run, hc, hr, hstep]
  rfl

theorem search_acquire_step (s : TrackState) (cols rows : Int) (raw : List DetectionResult)
    (hsearch : s.is_tracking = false)
    (hdet : ∃ d ∈ raw, d.score > SEARCH_CONF) :
    ∃ best s',
      best ∈ searchResults raw ∧ (∀ e ∈ searchResults raw, e.score ≤ best.score) ∧
      step s cols rows raw = .ok s' ∧
      s'.is_tracking = true ∧ s'.last_rect = best.bbox ∧ s'.target_id = best.cls ∧
      s'.velocity = ⟨0, 0⟩ ∧ s'.lost_count = s.lost_count := by
  obtain ⟨d, hd, hscore⟩ := hdet
  have hmem : d ∈ searchResults raw := by
    simp only [searchResults, List.mem_filter, searchKeep, decide_eq_true_eq]
    exact ⟨hd, hscore⟩
  obtain ⟨best, rest, hsort, hbest, hmax⟩ := sortByScore_head _ (List.ne_nil_of_mem hmem)
  refine ⟨best, decisionLayer s (searchResults raw), hbest, hmax, ?_, ?_, ?_, ?_, ?_, ?_⟩
  · simp [step, hsearch]
  · simp [decisionLayer, hsort]
  · simp [decisionLayer, hsort]
  · simp [decisionLayer, hsort]
  · simp [decisionLayer, hsort, hsearch]
  · simp [decisionLayer, hsort]

/-- C1: after a loss and a re-acquisition the machine is in TRACKING with the
target of Scenario B, and the first miss already switches it to SEARCHING,
because `lost_count` is still 11 when the target is acquired again. -/
theorem first_miss_after_reacquisition_drops :
    run initState (acquireThenLose ++ [targetFrame]) =
      .ok { is_tracking := true, last_rect := ⟨100, 100, 50, 50⟩, velocity := ⟨0, 0⟩,
            lost_count := 11, target_id := 3 } ∧
    run initState (acquireThenLose ++ [targetFrame, vga []]) =
      .ok { is_tracking := false, last_rect := ⟨100, 100, 50, 50⟩, velocity := ⟨0, 0⟩,
            lost_count := 12, target_id := 3 } := by
  decide!

/-- C2: in the SEARCHING state reached after a target loss, a frame with one
detection of score 0.55 leads to TRACKING with velocity (0,0), but
`lost_count` stays 11. -/
theorem acquisition_keeps_stale_lost_count :
    run initState acquireThenLose =
      .ok { is_tracking := false, last_rect := ⟨100, 100, 50, 50⟩, velocity := ⟨0, 0⟩,
            lost_count := 11, target_id := 3 } ∧
    step { is_tracking := false, last_rect := ⟨100, 100, 50, 50⟩, velocity := ⟨0, 0⟩,
           lost_count := 11, target_id := 3 } 640 480
        [detection 7 (9227469 / 16777216) ⟨300, 200, 40, 40⟩] =
      .ok { is_tracking := true, last_rect := ⟨300, 200, 40, 40⟩, velocity := ⟨0, 0⟩,
            lost_count := 11, target_id := 7 } := by
  decide!

/-- C8: on a 640 x 480 image the loop reaches, by five frames of ordinary
detections, a tracking state whose `last_rect` lies inside the image and whose
clamped ROI starts right of the image (`x = 724`) with width `-84`; the crop
of the next frame then raises the OpenCV assertion. -/
theorem roi_outside_after_border_run :
    run initState borderRun = .ok borderState ∧
    roi_rect borderState 640 480 = ⟨724, 146, -84, 128⟩ ∧
    step borderState 640 480 [] = .error Fault.cvAssert := by
  decide!

/-! ### The decode loop of `detect` -/

theorem readFloats_spec (data : List Rat) (base n : Nat) (vs : List Rat)
    (h : readFloats data base n = .ok vs) :
    vs.length = n ∧ ∀ c, c < n → data[base + c]? = vs[c]? := by
  induction n generalizing vs with
  | zero =>
    simp only [readFloats, Except.ok.injEq] at h
    subst h
    exact ⟨rfl, fun c hc => absurd hc (Nat.not_lt_zero c)⟩
  | succ n ih =>
    simp only [readFloats] at h
    cases h0 : readFloats data base n with
    | error e => simp [h0] at h
    | ok vs0 =>
      obtain ⟨hlen, hget⟩ := ih vs0 h0
      simp only [h0, readFloat] at h
      cases h1 : data[base + n]? with
      | none => simp [h1] at h
      | some v =>
        simp only [h1, Except.ok.injEq] at h
        subst h
        refine ⟨by simp [hlen], ?_⟩
        intro c hc
        by_cases hcn : c < n
        · rw [hget c hcn, List.getElem?_append_left (by omega)]
        · have hc' : c = n := by omega
          subst hc'
          rw [h1, List.getElem?_append_right (by omega)]
          simp [hlen]

theorem maxScoreLoop_spec (ss : List Rat) (c0 : Int) (m0 : Rat) (id0 : Int) :
    (∀ v ∈ ss, v ≤ (maxScoreLoop ss c0 m0 id0).1) ∧
    m0 ≤ (maxScoreLoop ss c0 m0 id0).1 ∧
    ((maxScoreLoop ss c0 m0 id0) = (m0, id0) ∨
     ∃ k : Nat, k < ss.length ∧ (maxScoreLoop ss c0 m0 id0).2 = c0 + k ∧
       ss[k]? = some (maxScoreLoop ss c0 m0 id0).1 ∧ m0 < (maxScoreLoop ss c0 m0 id0).1 ∧
       ∀ j, j < k → ∀ v, ss[j]? = some v → v < (maxScoreLoop ss c0 m0 id0).1) := by
  induction ss generalizing c0 m0 id0 with
  | nil => simp [maxScoreLoop]
  | cons s ss ih =>
    by_cases hs : s > m0
    · have heq : maxScoreLoop (s :: ss) c0 m0 id0 = maxScoreLoop ss (c0 + 1) s c0 := by
        simp [maxScoreLoop, hs]
      rw [heq]
      obtain ⟨hall, hle, hcase⟩ := ih (c0 + 1) s c0
      refine ⟨?_, le_trans (le_of_lt hs) hle, Or.inr ?_⟩
      · intro v hv
        rcases List.mem_cons.mp hv with h | h
        · rw [h]; exact hle
        · exact hall v h
      · rcases hcase with hc | ⟨k, hk, hid, hget, hlt, hbefore⟩
        · refine ⟨0, by simp, ?_, ?_, ?_, ?_⟩
          · rw [hc]; simp
          · rw [hc]; simp
          · rw [hc]; exact hs
          · intro j hj; omega
        · refine ⟨k + 1, by simp [hk], ?_, ?_, lt_trans hs hlt, ?_⟩
          · rw [hid]; push_cast; ring
          · simpa using hget
          · intro j hj v hv
            cases j with
            | zero =>
              simp at hv
              rw [← hv]; exact hlt
            | succ j =>
              simp at hv
              exact hbefore j (by omega) v hv
    · have heq : maxScoreLoop (s :: ss) c0 m0 id0 = maxScoreLoop ss (c0 + 1) m0 id0 := by
        simp [maxScoreLoop, hs]
      rw [heq]
      obtain ⟨hall, hle, hcase⟩ := ih (c0 + 1) m0 id0
      have hs' : s ≤ m0 := not_lt.mp hs
      refine ⟨?_, hle, ?_⟩
      · intro v hv
        rcases List.mem_cons.mp hv with h | h
        · rw [h]; exact le_trans hs' hle
        · exact hall v h
      · rcases hcase with hc | ⟨k, hk, hid, hget, hlt, hbefore⟩
        · exact Or.inl hc
        · refine Or.inr ⟨k + 1, by simp [hk], ?_, ?_, hlt, ?_⟩
          · rw [hid]; push_cast; ring
          · simpa using hget
          · intro j hj v hv
            cases j with
            | zero =>
              simp at hv
              rw [← hv]; exact lt_of_le_of_lt hs' hlt
            | succ j =>
              simp at hv
              exact hbefore j (by omega) v hv

theorem decodeAnchor_some (det : YOLODetector) (lb : Letterbox) (cols rows : Int) (dims : Nat)
    (data : List Rat) (i : Nat) (c : Candidate)
    (h : decodeAnchor det lb cols rows dims data i = .ok (some c)) :
    ∃ scores cx cy w h,
      readFloats data (i * dims + 4) det.num_classes_.toNat = .ok scores ∧
      det.conf_threshold_ < c.confidence ∧
      maxScoreLoop scores 0 (-1) (-1) = (c.confidence, c.class_id) ∧
      c.box = unmapBox lb cols rows cx cy w h := by
  simp only [decodeAnchor] at h
  cases hs : readFloats data (i * dims + 4) det.num_classes_.toNat with
  | error e => simp [hs] at h
  | ok scores =>
    simp only [hs] at h
    by_cases hm : (maxScoreLoop scores 0 (-1) (-1)).1 > det.conf_threshold_
    · simp only [hm, if_true] at h
      split at h
      · rename_i cx cy w hh _
        simp only [Except.ok.injEq, Option.some.injEq] at h
        subst h
        exact ⟨scores, cx, cy, w, hh, rfl, hm, rfl, rfl⟩
      · simp at h
      · simp at h
    · simp [hm] at h

theorem decodeAnchors_mem (det : YOLODetector) (lb : Letterbox) (cols rows : Int) (dims : Nat)
    (data : List Rat) (is : List Nat) (cs : List Candidate)
    (h : decodeAnchors det lb cols rows dims data is = .ok cs) :
    ∀ c ∈ cs, ∃ i ∈ is, decodeAnchor det lb cols rows dims data i = .ok (some c) := by
  induction is generalizing cs with
  | nil =>
    simp only [decodeAnchors, Except.ok.injEq] at h
    subst h
    simp
  | cons i is ih =>
    simp only [decodeAnchors] at h
    cases h0 : decodeAnchor det lb cols rows dims data i with
    | error e => simp [h0] at h
    | ok oc =>
      simp only [h0] at h
      cases h1 : decodeAnchors det lb cols rows dims data is with
      | error e => simp [h1] at h
      | ok cs0 =>
        simp only [h1, Except.ok.injEq] at h
        subst h
        intro c hc
        rcases List.mem_append.mp hc with hc | hc
        · cases oc with
          | none => simp at hc
          | some c0 =>
            simp at hc
            subst hc
            exact ⟨i, by simp, h0⟩
        · obtain ⟨j, hj, hdec⟩ := ih cs0 h1 c hc
          exact ⟨j, by simp [hj], hdec⟩

theorem detect_ok_mem (det : YOLODetector) (computeOverlap : Rect → Rect → Rat)
    (cols rows frame_id : Int) (t : OutputTensor) (res : List DetectionResult)
    (h : detect det computeOverlap cols rows frame_id t = .ok res) :
    ∀ r ∈ res, 0 < cols ∧ 0 < rows ∧ 0 ≤ det.conf_threshold_ ∧
      ∃ lb c i, preprocess det cols rows = .ok lb ∧ i < t.anchors ∧
        decodeAnchor det lb cols rows t.dims t.output_t i = .ok (some c) ∧
        r = packResult frame_id c := by
  intro r hr
  simp only [detect] at h
  by_cases hempty : cols ≤ 0 ∨ rows ≤ 0
  · simp only [hempty, if_true, Except.ok.injEq] at h
    subst h
    simp at hr
  · simp only [hempty, if_false] at h
    cases hp : preprocess det cols rows with
    | error e => simp [hp] at h
    | ok lb =>
      simp only [hp] at h
      cases hd : decodeAnchors det lb cols rows t.dims t.output_t (List.range t.anchors) with
      | error e => simp [hd] at h
      | ok cands =>
        simp only [hd] at h
        cases hn : NMSBoxes computeOverlap (cands.map Candidate.box)
            (cands.map Candidate.confidence) det.conf_threshold_ det.nms_threshold_ with
        | error e => simp [hn] at h
        | ok indices =>
          simp only [hn, Except.ok.injEq] at h
          subst h
          have hthr : 0 ≤ det.conf_threshold_ := by
            simp only [NMSBoxes] at hn
            by_cases hneg : det.conf_threshold_ < 0 ∨ det.nms_threshold_ < 0
            · simp [hneg] at hn
            · push_neg at hneg
              exact hneg.1
          obtain ⟨idx, _, hidx⟩ := List.mem_filterMap.mp hr
          cases hc : cands[idx]? with
          | none => simp [hc] at hidx
          | some c =>
            simp only [hc, Option.map_some', Option.some.injEq] at hidx
            have hcm : c ∈ cands := List.getElem?_mem hc
            obtain ⟨i, hi, hdec⟩ := decodeAnchors_mem det lb cols rows t.dims t.output_t _ _ hd c hcm
            push_neg at hempty
            exact ⟨hempty.1, hempty.2, hthr, lb, c, i, rfl, List.mem_range.mp hi, hdec, hidx.symm⟩

theorem detect_score_gt (det : YOLODetector) (computeOverlap : Rect → Rect → Rat)
    (cols rows frame_id : Int) (t : OutputTensor) (res : List DetectionResult)
    (h : detect det computeOverlap cols rows frame_id t = .ok res) :
    ∀ r ∈ res, det.conf_threshold_ < r.score := by
  intro r hr
  obtain ⟨_, _, _, lb, c, i, _, _, hdec, hpack⟩ :=
    detect_ok_mem det computeOverlap cols rows frame_id t res h r hr
  obtain ⟨_, _, _, _, _, _, hconf, _, _⟩ :=
    decodeAnchor_some det lb cols rows t.dims t.output_t i c hdec
  rw [hpack]
  exact hconf

/-- C6: every detection returned by `detect` comes from an anchor `i` whose
maximum class score is strictly above `conf_threshold_`; its `score` is that
maximum and its `cls` is the first class index reaching it. -/
theorem detect_confidence_argmax (det : YOLODetector) (computeOverlap : Rect → Rect → Rat)
    (cols rows frame_id : Int) (t : OutputTensor) (res : List DetectionResult)
    (h : detect det computeOverlap cols rows frame_id t = .ok res) :
    ∀ r ∈ res, ∃ i c : Nat, i < t.anchors ∧ c < det.num_classes_.toNat ∧ r.cls = c ∧
      det.conf_threshold_ < r.score ∧
      t.output_t[i * t.dims + 4 + c]? = some r.score ∧
      (∀ c', c' < det.num_classes_.toNat →
        ∃ v, t.output_t[i * t.dims + 4 + c']? = some v ∧ v ≤ r.score) ∧
      (∀ c', c' < c → ∃ v, t.output_t[i * t.dims + 4 + c']? = some v ∧ v < r.score) := by
  intro r hr
  obtain ⟨_, _, hthr, lb, c, i, _, hi, hdec, hpack⟩ :=
    detect_ok_mem det computeOverlap cols rows frame_id t res h r hr
  obtain ⟨scores, cx, cy, w, hh, hread, hconf, hloop, _⟩ :=
    decodeAnchor_some det lb cols rows t.dims t.output_t i c hdec
  obtain ⟨hlen, hget⟩ := readFloats_spec _ _ _ _ hread
  obtain ⟨hall, _, hcase⟩ := maxScoreLoop_spec scores 0 (-1) (-1)
  rw [hloop] at hall hcase
  have hscore : r.score = c.confidence := by rw [hpack]; rfl
  have hcls : r.cls = c.class_id := by rw [hpack]; rfl
  rcases hcase with hinit | ⟨k, hk, hid, hgetk, _, hbefore⟩
  · exfalso
    have h1 : c.confidence = -1 := (Prod.mk.inj hinit).1
    rw [h1] at hconf
    linarith
  · simp only at hid hgetk hall hbefore
    rw [hlen] at hk
    refine ⟨i, k, hi, hk, ?_, ?_, ?_, ?_, ?_⟩
    · rw [hcls, hid]; simp
    · rw [hscore]; exact hconf
    · rw [hget k hk, hgetk, hscore]
    · intro c' hc'
      have hlt : c' < scores.length := by rw [hlen]; exact hc'
      refine ⟨scores[c'], ?_, ?_⟩
      · rw [hget c' hc']; exact List.getElem?_eq_getElem hlt
      · rw [hscore]; exact hall _ (List.getElem_mem hlt)
    · intro c' hc'
      have hlt : c' < scores.length := by rw [hlen]; omega
      refine ⟨scores[c'], ?_, ?_⟩
      · rw [hget c' (by omega)]; exact List.getElem?_eq_getElem hlt
      · rw [hscore]; exact hbefore c' hc' _ (List.getElem?_eq_getElem hlt)

/-- Witness of `detect_confidence_argmax`: two anchors, one with a tie between
classes 2 and 5, one with its maximum exactly at the threshold. -/
theorem detect_confidence_argmax_witness :
    detect defaultDetector rectOverlap 480 480 1 tieTensor =
      .ok [packResult 1 ⟨⟨80, 80, 40, 40⟩, 4 / 5, 2⟩] ∧
    ∀ r ∈ [packResult 1 ⟨⟨80, 80, 40, 40⟩, 4 / 5, 2⟩], ∃ i c : Nat,
      i < tieTensor.anchors ∧ c < defaultDetector.num_classes_.toNat ∧ r.cls = c ∧
      defaultDetector.conf_threshold_ < r.score ∧
      tieTensor.output_t[i * tieTensor.dims + 4 + c]? = some r.score ∧
      (∀ c', c' < defaultDetector.num_classes_.toNat →
        ∃ v, tieTensor.output_t[i * tieTensor.dims + 4 + c']? = some v ∧ v ≤ r.score) ∧
      (∀ c', c' < c →
        ∃ v, tieTensor.output_t[i * tieTensor.dims + 4 + c']? = some v ∧ v < r.score) :=
  ⟨by decide!, detect_confidence_argmax defaultDetector rectOverlap 480 480 1 tieTensor _
    (by decide!)⟩

theorem sortByScore_eq_nil (l : List DetectionResult) : sortByScore l = [] ↔ l = [] := by
  cases l with
  | nil => simp [sortByScore]
  | cons d ds => simp [sortByScore, insertByScore_ne_nil]

theorem decisionLayer_is_tracking (s : TrackState) (results : List DetectionResult)
    (hs : s.is_tracking = false) :
    (decisionLayer s results).is_tracking = true ↔ results ≠ [] := by
  cases hsort : sortByScore results with
  | nil =>
    have : results = [] := (sortByScore_eq_nil results).mp hsort
    simp [decisionLayer, hsort, hs, this, sortByScore]
  | cons b rest =>
    have : results ≠ [] := fun hnil => by
      rw [(sortByScore_eq_nil results).mpr hnil] at hsort
      exact List.noConfusion hsort
    simp [decisionLayer, hsort, this]

/-- C10: with `conf_threshold_ = 0.50` and `SEARCH_CONF = 0.40`, every
detection returned by `detect` has a score above 0.50, so the search filter
returns the detector output unchanged, no result has a score in (0.40, 0.50],
and a step from SEARCHING ends in TRACKING exactly when that output is
non-empty. -/
theorem search_filter_is_identity (det : YOLODetector) (computeOverlap : Rect → Rect → Rat)
    (cols rows frame_id : Int) (t : OutputTensor) (res : List DetectionResult) (s : TrackState)
    (hconf : det.conf_threshold_ = 1 / 2)
    (hdet : detect det computeOverlap cols rows frame_id t = .ok res)
    (hs : s.is_tracking = false) :
    searchResults res = res ∧
    (∀ d ∈ res, 1 / 2 < d.score ∧ searchKeep d = true) ∧
    ∃ s', step s cols rows res = .ok s' ∧ (s'.is_tracking = true ↔ res ≠ []) := by
  have hall : ∀ d ∈ res, 1 / 2 < d.score ∧ searchKeep d = true := by
    intro d hd
    have hlt := detect_score_gt det computeOverlap cols rows frame_id t res hdet d hd
    rw [hconf] at hlt
    refine ⟨hlt, ?_⟩
    simp only [searchKeep, decide_eq_true_eq]
    have : SEARCH_CONF < 1 / 2 := by norm_num [SEARCH_CONF]
    exact lt_trans this hlt
  have hfilter : searchResults res = res :=
    List.filter_eq_self.mpr (fun d hd => (hall d hd).2)
  refine ⟨hfilter, hall, decisionLayer s res, ?_, decisionLayer_is_tracking s res hs⟩
  simp [step, hs, hfilter]

/-- Witness of `search_filter_is_identity`: the detector output on
`tieTensor`, fed to the initial SEARCHING state. -/
theorem search_filter_is_identity_witness :
    searchResults [packResult 1 ⟨⟨80, 80, 40, 40⟩, 4 / 5, 2⟩] =
      [packResult 1 ⟨⟨80, 80, 40, 40⟩, 4 / 5, 2⟩] ∧
    (∀ d ∈ [packResult 1 ⟨⟨80, 80, 40, 40⟩, 4 / 5, 2⟩], 1 / 2 < d.score ∧ searchKeep d = true) ∧
    ∃ s', step initState 480 480 [packResult 1 ⟨⟨80, 80, 40, 40⟩, 4 / 5, 2⟩] = .ok s' ∧
      (s'.is_tracking = true ↔ [packResult 1 ⟨⟨80, 80, 40, 40⟩, 4 / 5, 2⟩] ≠ []) :=
  search_filter_is_identity defaultDetector rectOverlap 480 480 1 tieTensor _ initState
    (by decide!) (by decide!) (by decide!)

/-- C4: on a 480 x 240 frame, an anchor placed in the lower padding band of
the letterboxed input is returned with box (230, 290, 20, -50): `y = 290` is
not below `image_h = 240` and the height is negative. -/
theorem detect_box_below_image :
    detect defaultDetector rectOverlap 480 240 1 paddingTensor =
      .ok [{ cls := 0, score := 9 / 10, bbox := ⟨230, 290, 20, -50⟩,
             center := ⟨240, 265⟩, kpts := [], frame_id := 1 }] := by
  decide!

/-! ### Binary rounding -/

theorem pow2_eq (e : Int) : pow2 e = (2 : Rat) ^ e := by
  unfold pow2
  split
  · rename_i h
    rw [Nat.cast_pow, Nat.cast_ofNat]
    conv_rhs => rw [← Int.toNat_of_nonneg h, zpow_natCast]
  · rename_i h
    have h' : 0 ≤ -e := by omega
    rw [Nat.cast_pow, Nat.cast_ofNat, one_div]
    conv_rhs => rw [← neg_neg e, zpow_neg, ← Int.toNat_of_nonneg h', zpow_natCast]

theorem pow2_pos (e : Int) : 0 < pow2 e := by
  rw [pow2_eq]
  positivity

theorem log2Fuel_spec (fuel n : Nat) (hn : n ≠ 0) (hf : n ≤ fuel) :
    2 ^ log2Fuel fuel n ≤ n ∧ n < 2 ^ (log2Fuel fuel n + 1) := by
  induction fuel generalizing n with
  | zero => omega
  | succ fuel ih =>
    simp only [log2Fuel]
    by_cases h2 : n < 2
    · simp only [h2, if_true]
      omega
    · simp only [h2, if_false]
      obtain ⟨h1, h3⟩ := ih (n / 2) (by omega) (by omega)
      have e1 : 2 ^ (log2Fuel fuel (n / 2) + 1) = 2 * 2 ^ log2Fuel fuel (n / 2) := by ring
      have e2 : 2 ^ (log2Fuel fuel (n / 2) + 1 + 1) = 2 * 2 ^ (log2Fuel fuel (n / 2) + 1) := by
        ring
      rw [e2]
      rw [e1] at h3 ⊢
      omega

theorem natLog2_spec (n : Nat) (hn : n ≠ 0) :
    2 ^ natLog2 n ≤ n ∧ n < 2 ^ (natLog2 n + 1) :=
  log2Fuel_spec n n hn (Nat.le_refl n)

theorem floorLog2_spec (x : Rat) (hx : x ≠ 0) :
    pow2 (floorLog2 x) ≤ |x| ∧ |x| < pow2 (floorLog2 x + 1) := by
  have hnum : x.num.natAbs ≠ 0 := by
    simpa using Rat.num_ne_zero.mpr hx
  obtain ⟨ha1, ha2⟩ := natLog2_spec x.num.natAbs hnum
  obtain ⟨hb1, hb2⟩ := natLog2_spec x.den x.den_nz
  have habs : |x| = (x.num.natAbs : Rat) / (x.den : Rat) := by
    conv_lhs => rw [← Rat.num_div_den x]
    rw [abs_div, Nat.abs_cast, Nat.cast_natAbs, Int.cast_abs]
  have hd : (0 : Rat) < x.den := by exact_mod_cast x.den_pos
  have ha1' : (2 : Rat) ^ natLog2 x.num.natAbs ≤ x.num.natAbs := by exact_mod_cast ha1
  have ha2' : (x.num.natAbs : Rat) < 2 ^ (natLog2 x.num.natAbs + 1) := by exact_mod_cast ha2
  have hb1' : (2 : Rat) ^ natLog2 x.den ≤ x.den := by exact_mod_cast hb1
  have hb2' : (x.den : Rat) < 2 ^ (natLog2 x.den + 1) := by exact_mod_cast hb2
  have hpa : (0 : Rat) < 2 ^ natLog2 x.num.natAbs := by positivity
  have hpb : (0 : Rat) < 2 ^ natLog2 x.den := by positivity
  -- the candidate exponent
  have he0 : pow2 ((natLog2 x.num.natAbs : Int) - (natLog2 x.den : Int)) =
      (2 : Rat) ^ natLog2 x.num.natAbs / 2 ^ natLog2 x.den := by
    rw [pow2_eq, zpow_sub₀ (by norm_num), zpow_natCast, zpow_natCast]
  have hup : |x| < pow2 ((natLog2 x.num.natAbs : Int) - (natLog2 x.den : Int) + 1) := by
    rw [pow2_eq, zpow_add_one₀ (by norm_num), ← pow2_eq, he0, habs, div_mul_eq_mul_div,
      div_lt_div_iff₀ hd hpb]
    have : (x.num.natAbs : Rat) < 2 ^ natLog2 x.num.natAbs * 2 := by
      rw [pow_succ] at ha2'
      exact ha2'
    nlinarith
  have hlow : pow2 ((natLog2 x.num.natAbs : Int) - (natLog2 x.den : Int) - 1) ≤ |x| := by
    rw [pow2_eq, zpow_sub_one₀ (by norm_num), ← pow2_eq, he0, habs, div_mul_eq_mul_div,
      div_le_div_iff₀ hpb hd]
    have : (x.den : Rat) < 2 ^ natLog2 x.den * 2 := by
      rw [pow_succ] at hb2'
      exact hb2'
    have h2 : (2 : Rat)⁻¹ * 2 = 1 := by norm_num
    nlinarith
  unfold floorLog2
  simp only
  split
  · rename_i h
    exact ⟨h, hup⟩
  · rename_i h
    refine ⟨hlow, ?_⟩
    rw [sub_add_cancel]
    exact not_le.mp h

theorem roundTiesEven_spec (q : Rat) :
    q - 1 / 2 ≤ (roundTiesEven q : Rat) ∧ (roundTiesEven q : Rat) ≤ q + 1 / 2 := by
  have hf : Rat.floor q = ⌊q⌋ := rfl
  have h1 : ((⌊q⌋ : Int) : Rat) ≤ q := Int.floor_le q
  have h2 : q < (⌊q⌋ : Int) + 1 := Int.lt_floor_add_one q
  unfold roundTiesEven
  simp only [hf]
  split
  · rename_i h
    constructor <;> linarith
  · split
    · rename_i h
      push_cast
      constructor <;> linarith
    · rename_i h3 h4
      have : q - (⌊q⌋ : Int) = 1 / 2 := le_antisymm (not_lt.mp h4) (not_lt.mp h3)
      split
      · constructor <;> linarith
      · push_cast
        constructor <;> linarith

theorem roundTiesEven_nonneg (q : Rat) (hq : 0 ≤ q) : 0 ≤ roundTiesEven q := by
  have hf : Rat.floor q = ⌊q⌋ := rfl
  have h0 : 0 ≤ ⌊q⌋ := Int.floor_nonneg.mpr hq
  unfold roundTiesEven
  simp only [hf]
  split
  · exact h0
  · split
    · omega
    · split <;> omega

theorem roundTiesEven_intCast (z : Int) : roundTiesEven (z : Rat) = z := by
  have hf : Rat.floor (z : Rat) = z := by
    show ⌊(z : Rat)⌋ = z
    exact Int.floor_intCast z
  unfold roundTiesEven
  simp only [hf, sub_self]
  norm_num

theorem fl32_nonneg (x : Rat) (hx : 0 ≤ x) : 0 ≤ fl32 x := by
  unfold fl32 roundBinary
  split
  · exact le_refl 0
  · simp only
    apply mul_nonneg
    · exact_mod_cast roundTiesEven_nonneg _ (div_nonneg hx (le_of_lt (pow2_pos _)))
    · exact le_of_lt (pow2_pos _)

theorem round_scaled_le (x P c : Rat) (hP : 0 < P) (hc : P ≤ c) :
    (roundTiesEven (x / P) : Rat) * P ≤ x + c / 2 := by
  obtain ⟨_, hr⟩ := roundTiesEven_spec (x / P)
  have hmul := mul_le_mul_of_nonneg_right hr (le_of_lt hP)
  have hne := ne_of_gt hP
  have hcancel : (x / P + 1 / 2) * P = x + P / 2 := by
    field_simp
    ring
  rw [hcancel] at hmul
  linarith

theorem fl32_le (x : Rat) (hx : 0 ≤ x) :
    fl32 x ≤ x * (1 + 1 / 2 ^ 24) + 1 / 2 ^ 150 := by
  unfold fl32 roundBinary
  split
  · rename_i h0
    rw [h0]
    norm_num
  · rename_i h0
    simp only
    have hxpos : 0 < x := lt_of_le_of_ne hx (Ne.symm h0)
    obtain ⟨hlow, _⟩ := floorLog2_spec x h0
    rw [abs_of_pos hxpos] at hlow
    refine le_trans (round_scaled_le x _ (x * (2 / 2 ^ 24) + 1 / 2 ^ 149) (pow2_pos _) ?_) ?_
    · rcases max_choice (floorLog2 x - ((24 : Nat) - 1 : Int)) (-149) with h | h
      · rw [h]
        have : pow2 (floorLog2 x - ((24 : Nat) - 1 : Int)) = pow2 (floorLog2 x) * (2 / 2 ^ 24) := by
          rw [pow2_eq, pow2_eq, zpow_sub₀ (by norm_num)]
          norm_num
          ring
        rw [this]
        have hp : (0 : Rat) ≤ 2 / 2 ^ 24 := by positivity
        have := mul_le_mul_of_nonneg_right hlow hp
        have hq : (0 : Rat) ≤ 1 / 2 ^ 149 := by positivity
        linarith
      · rw [h]
        have : pow2 (-149) = 1 / 2 ^ 149 := by
          rw [pow2_eq]
          norm_num
        rw [this]
        have hp : (0 : Rat) ≤ x * (2 / 2 ^ 24) := by positivity
        linarith
    · have e150 : (1 : Rat) / 2 ^ 150 = (1 / 2 ^ 149) / 2 := by norm_num
      rw [e150]
      linarith

theorem fl32_natCast_exact (n : Nat) (hn : n < 2 ^ 24) : fl32 (n : Rat) = n := by
  by_cases h0 : n = 0
  · subst h0
    simp [fl32, roundBinary]
  have hx0 : (n : Rat) ≠ 0 := by exact_mod_cast h0
  have hxpos : (0 : Rat) < n := by positivity
  obtain ⟨hlow, hup⟩ := floorLog2_spec (n : Rat) hx0
  rw [abs_of_pos hxpos, pow2_eq] at hlow hup
  have hn' : (n : Rat) < 2 ^ ((24 : Nat) : Int) := by
    rw [zpow_natCast]
    exact_mod_cast hn
  have h1 : (1 : Rat) ≤ n := by exact_mod_cast Nat.one_le_iff_ne_zero.mpr h0
  have he_lt : floorLog2 (n : Rat) < 24 := by
    have := lt_of_le_of_lt hlow hn'
    have := (zpow_lt_zpow_iff_right₀ (by norm_num : (1 : Rat) < 2)).mp this
    exact_mod_cast this
  have he_ge : 0 ≤ floorLog2 (n : Rat) := by
    have h2 : (2 : Rat) ^ (0 : Int) < 2 ^ (floorLog2 (n : Rat) + 1) := by
      rw [zpow_zero]
      exact lt_of_le_of_lt h1 hup
    have := (zpow_lt_zpow_iff_right₀ (by norm_num : (1 : Rat) < 2)).mp h2
    omega
  unfold fl32 roundBinary
  simp only [hx0, if_false]
  have hmax : max (floorLog2 (n : Rat) - ((24 : Nat) - 1 : Int)) (-149) =
      -(((23 - floorLog2 (n : Rat)).toNat : Nat) : Int) := by
    rw [Int.toNat_of_nonneg (by omega)]
    have : (-149 : Int) ≤ floorLog2 (n : Rat) - ((24 : Nat) - 1 : Int) := by
      push_cast
      omega
    rw [max_eq_left this]
    push_cast
    ring
  rw [hmax]
  have hp : pow2 (-(((23 - floorLog2 (n : Rat)).toNat : Nat) : Int)) =
      ((2 : Rat) ^ (23 - floorLog2 (n : Rat)).toNat)⁻¹ := by
    rw [pow2_eq, zpow_neg, zpow_natCast]
  rw [hp]
  have hdiv : (n : Rat) / ((2 : Rat) ^ (23 - floorLog2 (n : Rat)).toNat)⁻¹ =
      (((n * 2 ^ (23 - floorLog2 (n : Rat)).toNat : Nat) : Int) : Rat) := by
    rw [div_inv_eq_mul]
    push_cast
    ring
  rw [hdiv, roundTiesEven_intCast]
  push_cast
  have hne : ((2 : Rat) ^ (23 - floorLog2 (n : Rat)).toNat) ≠ 0 := by positivity
  field_simp

/-! ### The letterbox arithmetic -/

theorem truncToInt_eq_floor (q : Rat) (hq : 0 ≤ q) (hlt : q < 2147483648) :
    truncToInt q = ⌊q⌋ := by
  have ht : Int.tdiv q.num q.den = ⌊q⌋ := by
    rw [Rat.floor_def]
    exact Int.tdiv_eq_ediv (Rat.num_nonneg.mpr hq) (Int.natCast_nonneg _)
  have h0 : 0 ≤ ⌊q⌋ := Int.floor_nonneg.mpr hq
  have h1 : ⌊q⌋ < 2147483648 := Int.floor_lt.mpr (by exact_mod_cast hlt)
  unfold truncToInt
  simp only [ht]
  rw [if_pos ⟨by omega, by omega⟩]

theorem fl32_intCast_exact (n : Int) (h0 : 0 ≤ n) (hn : n < 16777216) :
    fl32 (n : Rat) = n := by
  have hnat : n.toNat < 2 ^ 24 := by omega
  have := fl32_natCast_exact n.toNat hnat
  have hcast : ((n.toNat : Nat) : Rat) = (n : Rat) := by
    have : ((n.toNat : Nat) : Int) = n := Int.toNat_of_nonneg h0
    exact_mod_cast this
  rw [hcast] at this
  exact this

theorem resized_dim (w iw : Int) (s : Rat) (hw : 0 < w) (hw' : w < 16777216)
    (hiw : 0 ≤ iw) (hiw' : iw ≤ 1048576) (hs0 : 0 ≤ s) (hs : s ≤ fl32 ((iw : Rat) / w)) :
    truncToInt (fl32 (fl32 w * s)) = ⌊fl32 ((w : Rat) * s)⌋ ∧ ⌊fl32 ((w : Rat) * s)⌋ ≤ iw := by
  have hW : (0 : Rat) < w := by exact_mod_cast hw
  have hW' : (w : Rat) < 16777216 := by exact_mod_cast hw'
  have hI : (0 : Rat) ≤ iw := by exact_mod_cast hiw
  have hI' : (iw : Rat) ≤ 1048576 := by exact_mod_cast hiw'
  have hq : (0 : Rat) ≤ (iw : Rat) / w := div_nonneg hI (le_of_lt hW)
  have hs1 := fl32_le ((iw : Rat) / w) hq
  have hprod0 : (0 : Rat) ≤ (w : Rat) * s := mul_nonneg (le_of_lt hW) hs0
  have hp := fl32_le ((w : Rat) * s) hprod0
  have hws : (w : Rat) * s ≤ iw * (1 + 1 / 2 ^ 24) + w * (1 / 2 ^ 150) := by
    have h1 : (w : Rat) * s ≤ w * ((iw : Rat) / w * (1 + 1 / 2 ^ 24) + 1 / 2 ^ 150) :=
      mul_le_mul_of_nonneg_left (le_trans hs hs1) (le_of_lt hW)
    have h2 : (w : Rat) * ((iw : Rat) / w * (1 + 1 / 2 ^ 24) + 1 / 2 ^ 150) =
        iw * (1 + 1 / 2 ^ 24) + w * (1 / 2 ^ 150) := by
      field_simp
      ring
    rw [h2] at h1
    exact h1
  have hlt : fl32 ((w : Rat) * s) < iw + 1 := by
    have h3 : ((w : Rat) * s) * (1 + 1 / 2 ^ 24) ≤
        (iw * (1 + 1 / 2 ^ 24) + w * (1 / 2 ^ 150)) * (1 + 1 / 2 ^ 24) :=
      mul_le_mul_of_nonneg_right hws (by positivity)
    norm_num at h3 hp hws ⊢
    linarith
  have hnn := fl32_nonneg ((w : Rat) * s) hprod0
  have hfl : ⌊fl32 ((w : Rat) * s)⌋ ≤ iw := by
    have : ⌊fl32 ((w : Rat) * s)⌋ < iw + 1 := Int.floor_lt.mpr (by exact_mod_cast hlt)
    omega
  refine ⟨?_, hfl⟩
  rw [fl32_intCast_exact w (le_of_lt hw) hw']
  exact truncToInt_eq_floor _ hnn (by linarith)

theorem pad_split_nonneg (a : Int) (ha : 0 ≤ a) : 0 ≤ Int.tdiv a 2 ∧ 0 ≤ a - Int.tdiv a 2 := by
  rw [Int.tdiv_eq_ediv ha (by decide)]
  omega

/-- C9 (amended): for an image of `0 < w, h < 2^24` pixels and a model input
of `0 <= input_w_, input_h_ <= 2^20`, `preprocess` computes in single
precision `scale = min(input_w_ / w, input_h_ / h)` (each quotient rounded to
binary32) and resizes to `floor(w * scale)` by `floor(h * scale)` pixels,
where the product is the rounded binary32 product: its fraction is discarded.
The resized size does not exceed the model input, and when both sides are
positive the OpenCV calls succeed and `preprocess` returns these values. -/
theorem preprocess_truncates (det : YOLODetector) (w h : Int)
    (hw : 0 < w) (hw' : w < 16777216) (hh : 0 < h) (hh' : h < 16777216)
    (hiw : 0 ≤ det.input_w_) (hiw' : det.input_w_ ≤ 1048576)
    (hih : 0 ≤ det.input_h_) (hih' : det.input_h_ ≤ 1048576) :
    (letterbox det w h).scale =
      min (fl32 ((det.input_w_ : Rat) / w)) (fl32 ((det.input_h_ : Rat) / h)) ∧
    (letterbox det w h).new_w = ⌊fl32 ((w : Rat) * (letterbox det w h).scale)⌋ ∧
    (letterbox det w h).new_h = ⌊fl32 ((h : Rat) * (letterbox det w h).scale)⌋ ∧
    (letterbox det w h).new_w ≤ det.input_w_ ∧
    (letterbox det w h).new_h ≤ det.input_h_ ∧
    (0 < (letterbox det w h).new_w → 0 < (letterbox det w h).new_h →
      preprocess det w h = .ok (letterbox det w h)) := by
  have hW : (0 : Rat) < w := by exact_mod_cast hw
  have hH : (0 : Rat) < h := by exact_mod_cast hh
  have hI : (0 : Rat) ≤ det.input_w_ := by exact_mod_cast hiw
  have hJ : (0 : Rat) ≤ det.input_h_ := by exact_mod_cast hih
  have hscale : (letterbox det w h).scale =
      min (fl32 ((det.input_w_ : Rat) / w)) (fl32 ((det.input_h_ : Rat) / h)) := by
    simp only [letterbox]
    rw [fl32_intCast_exact w (le_of_lt hw) hw', fl32_intCast_exact h (le_of_lt hh) hh',
      fl32_intCast_exact det.input_w_ hiw (by omega),
      fl32_intCast_exact det.input_h_ hih (by omega)]
  have hs0 : 0 ≤ (letterbox det w h).scale := by
    rw [hscale]
    exact le_min (fl32_nonneg _ (div_nonneg hI (le_of_lt hW)))
      (fl32_nonneg _ (div_nonneg hJ (le_of_lt hH)))
  have hsw : (letterbox det w h).scale ≤ fl32 ((det.input_w_ : Rat) / w) := by
    rw [hscale]
    exact min_le_left _ _
  have hsh : (letterbox det w h).scale ≤ fl32 ((det.input_h_ : Rat) / h) := by
    rw [hscale]
    exact min_le_right _ _
  obtain ⟨hnw, hbw'⟩ := resized_dim w det.input_w_ _ hw hw' hiw hiw' hs0 hsw
  obtain ⟨hnh, hbh'⟩ := resized_dim h det.input_h_ _ hh hh' hih hih' hs0 hsh
  have hnw' : (letterbox det w h).new_w = ⌊fl32 ((w : Rat) * (letterbox det w h).scale)⌋ := hnw
  have hnh' : (letterbox det w h).new_h = ⌊fl32 ((h : Rat) * (letterbox det w h).scale)⌋ := hnh
  have hbw : (letterbox det w h).new_w ≤ det.input_w_ := by rw [hnw']; exact hbw'
  have hbh : (letterbox det w h).new_h ≤ det.input_h_ := by rw [hnh']; exact hbh'
  refine ⟨hscale, hnw', hnh', hbw, hbh, ?_⟩
  intro hpw hph
  have hpadw := pad_split_nonneg (det.input_w_ - (letterbox det w h).new_w) (by omega)
  have hpadh := pad_split_nonneg (det.input_h_ - (letterbox det w h).new_h) (by omega)
  have hwp : (letterbox det w h).w_pad =
      Int.tdiv (det.input_w_ - (letterbox det w h).new_w) 2 := rfl
  have hhp : (letterbox det w h).h_pad =
      Int.tdiv (det.input_h_ - (letterbox det w h).new_h) 2 := rfl
  have c1 : ¬ ((letterbox det w h).new_w ≤ 0 ∨ (letterbox det w h).new_h ≤ 0) := by omega
  have c2 : ¬ ((letterbox det w h).h_pad < 0 ∨
      det.input_h_ - (letterbox det w h).new_h - (letterbox det w h).h_pad < 0 ∨
      (letterbox det w h).w_pad < 0 ∨
      det.input_w_ - (letterbox det w h).new_w - (letterbox det w h).w_pad < 0) := by
    rw [hwp, hhp]
    omega
  simp only [preprocess, c1, c2, if_false]

/-- Witness of `preprocess_truncates`: the 100 x 37 image with the 480 x 480
input. -/
theorem preprocess_truncates_witness :
    (letterbox defaultDetector 100 37).scale =
      min (fl32 ((defaultDetector.input_w_ : Rat) / (100 : Int)))
        (fl32 ((defaultDetector.input_h_ : Rat) / (37 : Int))) ∧
    (letterbox defaultDetector 100 37).new_w =
      ⌊fl32 (((100 : Int) : Rat) * (letterbox defaultDetector 100 37).scale)⌋ ∧
    (letterbox defaultDetector 100 37).new_h =
      ⌊fl32 (((37 : Int) : Rat) * (letterbox defaultDetector 100 37).scale)⌋ ∧
    (letterbox defaultDetector 100 37).new_w ≤ defaultDetector.input_w_ ∧
    (letterbox defaultDetector 100 37).new_h ≤ defaultDetector.input_h_ ∧
    (0 < (letterbox defaultDetector 100 37).new_w → 0 < (letterbox defaultDetector 100 37).new_h →
      preprocess defaultDetector 100 37 = .ok (letterbox defaultDetector 100 37)) :=
  preprocess_truncates defaultDetector 100 37 (by decide) (by decide) (by decide) (by decide)
    (by decide!) (by decide!) (by decide!) (by decide!)

/-- C9 (counterexample): for a 100 x 37 image and the 480 x 480 input,
`preprocess` resizes to 480 x 177 (scale is the binary32 value of 4.8), while
rounding `37 * 4.8 = 177.6`, or the binary32 product, to the nearest integer
gives 178. -/
theorem preprocess_does_not_round :
    preprocess defaultDetector 100 37 =
      .ok { scale := 5033165 / 1048576, w_pad := 0, h_pad := 151, new_w := 480, new_h := 177 } ∧
    roundNearest ((37 : Rat) * (24 / 5)) = 178 ∧
    roundNearest (fl32 ((37 : Rat) * (letterbox defaultDetector 100 37).scale)) = 178 ∧
    (letterbox defaultDetector 100 37).new_h ≠
      roundNearest (fl32 ((37 : Rat) * (letterbox defaultDetector 100 37).scale)) := by
  decide!

/-- A square crop of 138 pixels is resized to 479 x 479, one pixel short of
the 480 x 480 input: the binary32 product `138 * scale` lies just below 480. -/
theorem preprocess_138_square :
    preprocess defaultDetector 138 138 =
      .ok { scale := fl32 (480 / 138), w_pad := 0, h_pad := 0, new_w := 479, new_h := 479 } := by
  decide!

/-! ### `detect` reads only the first `4 + num_classes_` channels -/

theorem decodeSpec_tieTensor :
    decodeSpec (YOLODetector.ofModel 480 480 19) rectOverlap
        { scale := 1, w_pad := 0, h_pad := 0, new_w := 480, new_h := 480 } 480 480 1 tieTensor =
      [packResult 1 ⟨⟨80, 80, 40, 40⟩, 4 / 5, 2⟩] := by
  decide!

theorem readFloats_error (data : List Rat) (base n : Nat) (e : Fault)
    (h : readFloats data base n = .error e) : e = Fault.outOfBounds := by
  induction n generalizing e with
  | zero => simp [readFloats] at h
  | succ n ih =>
    simp only [readFloats, readFloat] at h
    cases h0 : readFloats data base n with
    | error e0 =>
      simp only [h0, Except.error.injEq] at h
      rw [← h]
      exact ih e0 h0
    | ok vs =>
      simp only [h0] at h
      cases h1 : data[base + n]? with
      | none =>
        simp only [h1, Except.error.injEq] at h
        exact h.symm
      | some v => simp [h1] at h

theorem readFloats_oob (data : List Rat) (base n c : Nat) (hc : c < n)
    (hnone : data[base + c]? = none) :
    readFloats data base n = .error Fault.outOfBounds := by
  cases h : readFloats data base n with
  | error e => rw [readFloats_error data base n e h]
  | ok vs =>
    obtain ⟨hlen, hget⟩ := readFloats_spec data base n vs h
    have := hget c hc
    rw [hnone] at this
    have hlt : c < vs.length := by rw [hlen]; exact hc
    rw [List.getElem?_eq_getElem hlt] at this
    exact absurd this (by simp)

theorem decodeAnchor_error (det : YOLODetector) (lb : Letterbox) (cols rows : Int) (dims : Nat)
    (data : List Rat) (i : Nat) (e : Fault)
    (h : decodeAnchor det lb cols rows dims data i = .error e) : e = Fault.outOfBounds := by
  simp only [decodeAnchor] at h
  cases hs : readFloats data (i * dims + 4) det.num_classes_.toNat with
  | error e0 =>
    simp only [hs, Except.error.injEq] at h
    rw [← h]
    exact readFloats_error _ _ _ _ hs
  | ok scores =>
    simp only [hs] at h
    by_cases hm : (maxScoreLoop scores 0 (-1) (-1)).1 > det.conf_threshold_
    · simp only [hm, if_true] at h
      split at h
      · simp at h
      · simp only [Except.error.injEq] at h
        exact h.symm
      · rename_i e0 he0
        simp only [Except.error.injEq] at h
        rw [← h]
        exact readFloats_error _ _ _ _ he0
    · simp [hm] at h

theorem decodeAnchors_error (det : YOLODetector) (lb : Letterbox) (cols rows : Int) (dims : Nat)
    (data : List Rat) (is : List Nat) (i : Nat) (hi : i ∈ is)
    (herr : decodeAnchor det lb cols rows dims data i = .error Fault.outOfBounds) :
    decodeAnchors det lb cols rows dims data is = .error Fault.outOfBounds := by
  induction is with
  | nil => simp at hi
  | cons j js ih =>
    simp only [decodeAnchors]
    cases hj : decodeAnchor det lb cols rows dims data j with
    | error e => rw [decodeAnchor_error det lb cols rows dims data j e hj]
    | ok c =>
      have hne : i ≠ j := by
        intro hij
        rw [hij, hj] at herr
        exact Except.noConfusion herr
      have hmem : i ∈ js := by
        rcases List.mem_cons.mp hi with h | h
        · exact absurd h hne
        · exact h
      simp only [ih hmem]

theorem detect_too_few_channels (det : YOLODetector) (computeOverlap : Rect → Rect → Rat)
    (cols rows frame_id : Int) (t : OutputTensor) (lb : Letterbox)
    (hcols : 0 < cols) (hrows : 0 < rows) (hpre : preprocess det cols rows = .ok lb)
    (hanchors : 0 < t.anchors) (hclasses : 0 < det.num_classes_.toNat)
    (hdims : t.dims < 4 + det.num_classes_.toNat) :
    detect det computeOverlap cols rows frame_id t = .error Fault.outOfBounds := by
  have hlen : t.output_t.length = t.anchors * t.dims := by simp [OutputTensor.output_t]
  have hlast : decodeAnchor det lb cols rows t.dims t.output_t (t.anchors - 1) =
      .error Fault.outOfBounds := by
    have hread : readFloats t.output_t ((t.anchors - 1) * t.dims + 4) det.num_classes_.toNat =
        .error Fault.outOfBounds := by
      refine readFloats_oob _ _ _ (det.num_classes_.toNat - 1) (by omega) ?_
      apply List.getElem?_eq_none
      rw [hlen]
      have h1 : t.anchors * t.dims = (t.anchors - 1) * t.dims + t.dims := by
        have : t.anchors = (t.anchors - 1) + 1 := by omega
        conv_lhs => rw [this, Nat.add_mul, Nat.one_mul]
      omega
    simp only [decodeAnchor, hread]
  have hall := decodeAnchors_error det lb cols rows t.dims t.output_t (List.range t.anchors)
    (t.anchors - 1) (List.mem_range.mpr (by omega)) hlast
  have hempty : ¬ (cols ≤ 0 ∨ rows ≤ 0) := by omega
  simp only [detect, hempty, if_false, hpre, hall]

theorem scenario_c_reads_out_of_bounds :
    detect defaultDetector rectOverlap 480 480 1 scenarioC = .error Fault.outOfBounds :=
  detect_too_few_channels defaultDetector rectOverlap 480 480 1 scenarioC
    { scale := 1, w_pad := 0, h_pad := 0, new_w := 480, new_h := 480 }
    (by decide) (by decide) (by decide!) (by decide!) (by decide!) (by decide!)

end rm_vision
